import Mathlib

/-!
# Verification of the Refactoring-Swarm orchestration engine

Shallow embedding of the orchestration core of the Refactoring-Swarm
repository: the sandboxed write guard (`src/tools/file_handler.py`), the
target-directory security gate and the per-file iteration loop
(`main.py`), the file scanner (`src/tools/file_tools.py`), the fixer's
grouping/gating logic (`src/agents/fixer.py`) and the judge's verdict
policy.  External capabilities (the LLM calls, `ast.parse`, `os.walk`,
`pylint`/`pytest` subprocesses) are modelled as oracle parameters, as the
specification treats them as black boxes.
-/

/-! ## Resolved paths

A resolved absolute path (the output of `os.path.abspath`) is modelled as
the list of its segments; `renderPath` rebuilds the textual form
(`/seg1/seg2/...`) on which the Python code performs its `startswith`
comparisons.  A well-formed resolved path has nonempty segments that do
not contain the separator character. -/

/-- A path segment, as the characters of its name. -/
abbrev Seg := List Char

/-- A resolved absolute path, as its list of segments. -/
abbrev AbsPath := List Seg

/-- Textual form of a resolved absolute path, e.g. `/a/b` for `[a, b]`:
exactly the string `os.path.abspath` returns on POSIX. -/
def renderPath : AbsPath → List Char
  | [] => []
  | s :: rest => '/' :: (s ++ renderPath rest)

/-- Well-formedness of a resolved path: every segment is nonempty and
contains no separator (true of every `os.path.abspath` output). -/
def WFPath (p : AbsPath) : Prop := ∀ s ∈ p, s ≠ [] ∧ '/' ∉ s

instance (p : AbsPath) : Decidable (WFPath p) :=
  List.decidableBAll _ p

/-- `p` is a strict descendant of `root`: it extends `root` by at least
one further segment.  This is the spec's notion of a path lying inside
the sandbox root. -/
def isDescendant (p root : AbsPath) : Prop := root <+: p ∧ p ≠ root

instance (p root : AbsPath) : Decidable (isDescendant p root) := by
  unfold isDescendant; exact instDecidableAnd

theorem renderPath_append (p q : AbsPath) :
    renderPath (p ++ q) = renderPath p ++ renderPath q := by
  induction p with
  | nil => simp [renderPath]
  | cons s rest ih => simp [renderPath, ih]

/-- Splitting a character list at the first separator is unambiguous when
the parts before the separator are separator-free. -/
theorem seg_split {a b x y : List Char} (ha : '/' ∉ a) (hb : '/' ∉ b)
    (h : a ++ '/' :: x = b ++ '/' :: y) : a = b ∧ x = y := by
  induction a generalizing b with
  | nil =>
    cases b with
    | nil => simpa using h
    | cons c b' =>
      simp only [List.nil_append, List.cons_append] at h
      injection h with h1 _
      subst h1
      simp at hb
  | cons c a' ih =>
    cases b with
    | nil =>
      simp only [List.nil_append, List.cons_append] at h
      injection h with h1 _
      subst h1
      simp at ha
    | cons c' b' =>
      simp only [List.cons_append] at h
      injection h with h1 h2
      subst h1
      have ha' : '/' ∉ a' := fun hm => ha (List.mem_cons_of_mem _ hm)
      have hb' : '/' ∉ b' := fun hm => hb (List.mem_cons_of_mem _ hm)
      obtain ⟨hab, hxy⟩ := ih ha' hb' h2
      exact ⟨by rw [hab], hxy⟩

theorem renderPath_sep_head (q : AbsPath) (t : List Char) :
    ∃ z, renderPath q ++ '/' :: t = '/' :: z := by
  cases q with
  | nil => exact ⟨t, by simp [renderPath]⟩
  | cons v r => exact ⟨v ++ renderPath r ++ '/' :: t, by simp [renderPath]⟩

/-- If the rendering of `p` extends the rendering of `root` past a
separator, then `p` extends `root` by at least one segment. -/
theorem renderPath_extend {root p : AbsPath} {t : List Char}
    (hr : WFPath root) (hp : WFPath p)
    (h : renderPath p = renderPath root ++ '/' :: t) :
    ∃ rest, rest ≠ [] ∧ p = root ++ rest := by
  induction root generalizing p t with
  | nil =>
    cases p with
    | nil => simp [renderPath] at h
    | cons s p' => exact ⟨s :: p', by simp, by simp⟩
  | cons s root' ih =>
    cases p with
    | nil => simp [renderPath] at h
    | cons s₂ p' =>
      have hs₂ : '/' ∉ s₂ := (hp s₂ (List.mem_cons_self _ _)).2
      have hs : '/' ∉ s := (hr s (List.mem_cons_self _ _)).2
      have hp' : WFPath p' := fun u hu => hp u (List.mem_cons_of_mem _ hu)
      have hr' : WFPath root' := fun u hu => hr u (List.mem_cons_of_mem _ hu)
      simp only [renderPath, List.cons_append, List.append_assoc] at h
      injection h with _ h
      cases p' with
      | nil =>
        exfalso
        simp only [renderPath, List.append_nil] at h
        obtain ⟨z, hz⟩ := renderPath_sep_head root' t
        rw [hz] at h
        exact hs₂ (h ▸ List.mem_append_right s (List.mem_cons_self _ _))
      | cons u p'' =>
        obtain ⟨z, hz⟩ := renderPath_sep_head root' t
        rw [hz] at h
        simp only [renderPath, List.cons_append] at h
        obtain ⟨hseq, htail⟩ := seg_split hs₂ hs h
        have hrec : renderPath (u :: p'') = renderPath root' ++ '/' :: t := by
          simp only [renderPath]
          rw [htail, ← hz]
        obtain ⟨rest, hne, hrest⟩ := ih hr' hp' hrec
        exact ⟨rest, hne, by rw [hseq, hrest]; rfl⟩

/-- The `startswith(sandbox_root + os.sep)` test performed by
`safe_write_file` holds exactly when the resolved write path is a strict
descendant of the resolved sandbox root. -/
theorem startswith_iff_descendant {p root : AbsPath}
    (hp : WFPath p) (hr : WFPath root) :
    (renderPath root ++ ['/']).isPrefixOf (renderPath p) = true ↔
      isDescendant p root := by
  rw [List.isPrefixOf_iff_prefix]
  constructor
  · rintro ⟨t, ht⟩
    have h : renderPath p = renderPath root ++ '/' :: t := by
      rw [← ht]; simp
    obtain ⟨rest, hne, hrest⟩ := renderPath_extend hr hp h
    refine ⟨⟨rest, hrest.symm⟩, ?_⟩
    intro hpr
    apply hne
    have hlen := congrArg List.length (hpr ▸ hrest)
    simp at hlen
    exact hlen
  · rintro ⟨⟨rest, hrest⟩, hne⟩
    cases rest with
    | nil => exact absurd (by simpa using hrest.symm) hne
    | cons u rest' =>
      refine ⟨u ++ renderPath rest', ?_⟩
      rw [← hrest, renderPath_append]
      simp [renderPath]

/-! ## SandboxGuard: `safe_write_file` (src/tools/file_handler.py)

```python
abs_path = os.path.abspath(filepath)
sandbox_root = os.path.abspath("sandbox")
if not abs_path.startswith(sandbox_root + os.sep):
    raise PermissionError(...)
os.makedirs(os.path.dirname(abs_path), exist_ok=True)
with open(abs_path, "w", encoding="utf-8") as f:
    f.write(content)
```

The file system is a map from resolved paths to contents; `abs_path` and
`sandbox_root` are taken already resolved (`os.path.abspath` applied). -/

/-- The error raised by `safe_write_file` for a path outside the sandbox. -/
inductive WriteError where
  | permissionError
deriving DecidableEq, Repr

/-- A file system: resolved absolute path to file content. -/
abbrev FS := AbsPath → Option (List Char)

/-- Embedding of `safe_write_file`: write `content` at `abs_path`
provided the rendered path starts with the rendered sandbox root
followed by the separator; otherwise raise `PermissionError`. -/
def safe_write_file (fs : FS) (abs_path sandbox_root : AbsPath)
    (content : List Char) : Except WriteError FS :=
  if (renderPath sandbox_root ++ ['/']).isPrefixOf (renderPath abs_path) then
    .ok (fun q => if q = abs_path then some content else fs q)
  else
    .error .permissionError

/-- C1.  For every write path and sandbox root (well-formed resolved
paths): `safe_write_file` raises `PermissionError` whenever the resolved
write path is neither the sandbox root nor one of its descendants; it
performs the write for every path that is a descendant of the root,
however deep; and any path whose content it changes is a descendant of
the root, so no write ever lands outside the sandbox. -/
theorem safe_write_file_sandbox_containment
    (fs : FS) (p root : AbsPath) (c : List Char)
    (hp : WFPath p) (hr : WFPath root) :
    (¬ (p = root ∨ isDescendant p root) →
      safe_write_file fs p root c = .error .permissionError)
    ∧ (isDescendant p root →
      safe_write_file fs p root c =
        .ok (fun q => if q = p then some c else fs q))
    ∧ (∀ fs', safe_write_file fs p root c = .ok fs' →
        ∀ q, fs' q ≠ fs q → isDescendant q root) := by
  have hbridge := startswith_iff_descendant hp hr
  refine ⟨?_, ?_, ?_⟩
  · intro hout
    have : ¬ isDescendant p root := fun h => hout (Or.inr h)
    unfold safe_write_file
    rw [if_neg]
    intro hcheck
    exact this (hbridge.mp hcheck)
  · intro hdesc
    unfold safe_write_file
    rw [if_pos (hbridge.mpr hdesc)]
  · intro fs' hok q hne
    unfold safe_write_file at hok
    by_cases hcheck :
        (renderPath root ++ ['/']).isPrefixOf (renderPath p) = true
    · rw [if_pos hcheck] at hok
      have hfs' : fs' = fun q => if q = p then some c else fs q :=
        ((Except.ok.injEq _ _).mp hok).symm
      by_cases hq : q = p
      · exact hq ▸ hbridge.mp hcheck
      · exact absurd (by rw [hfs']; simp [hq]) hne
    · rw [if_neg hcheck] at hok
      exact absurd hok (by simp)

/-- Concrete instantiation of `safe_write_file_sandbox_containment`:
sandbox root `/w/sandbox`, write path `/w/sandbox/a/b.py`. -/
theorem safe_write_file_sandbox_containment_witness :
    (¬ ([['w'], ['s', 'b'], ['a']] = [['w'], ['s', 'b']] ∨
        isDescendant [['w'], ['s', 'b'], ['a']] [['w'], ['s', 'b']]) →
      safe_write_file (fun _ => none) [['w'], ['s', 'b'], ['a']]
        [['w'], ['s', 'b']] ['x'] = .error .permissionError)
    ∧ (isDescendant [['w'], ['s', 'b'], ['a']] [['w'], ['s', 'b']] →
      safe_write_file (fun _ => none) [['w'], ['s', 'b'], ['a']]
        [['w'], ['s', 'b']] ['x'] =
        .ok (fun q => if q = [['w'], ['s', 'b'], ['a']] then some ['x']
          else none))
    ∧ (∀ fs', safe_write_file (fun _ => none) [['w'], ['s', 'b'], ['a']]
        [['w'], ['s', 'b']] ['x'] = .ok fs' →
        ∀ q, fs' q ≠ none → isDescendant q [['w'], ['s', 'b']]) :=
  safe_write_file_sandbox_containment (fun _ => none)
    [['w'], ['s', 'b'], ['a']] [['w'], ['s', 'b']] ['x']
    (by decide) (by decide)

/-! ## The target-directory security gate of `main` (main.py:389-429)

```python
sandbox_dir = Path("./sandbox").resolve()
target_path = Path(target_dir).resolve()
...
if not str(target_path).startswith(str(sandbox_dir)):
    ...
    sys.exit(1)
```

Note the comparison is a plain string-prefix test with **no** separator
appended, unlike `safe_write_file`. -/

/-- Embedding of the `startswith` test guarding the whole pipeline in
`main`: `True` means the gate lets the run proceed. -/
def target_dir_gate (target_path sandbox_dir : AbsPath) : Bool :=
  (renderPath sandbox_dir).isPrefixOf (renderPath target_path)

/-- C2 (failing input).  With sandbox root `/w/sandbox` and a target
directory resolving to the sibling `/w/sandboxevil`, the gate lets the
run proceed (`target_dir_gate = true`, i.e. `main` does not abort) even
though the target is neither the sandbox root nor a descendant of it:
the missing separator in the `startswith` comparison admits sibling
directories that share the root's name as a prefix, contradicting the
claimed abort-on-outside-target behaviour (and the repository's own
stated restriction that the target must be inside `./sandbox`). -/
theorem target_dir_gate_accepts_sibling_with_shared_prefix :
    target_dir_gate
        [['w'], ['s', 'a', 'n', 'd', 'b', 'o', 'x', 'e', 'v', 'i', 'l']]
        [['w'], ['s', 'a', 'n', 'd', 'b', 'o', 'x']] = true
    ∧ ¬ ([['w'], ['s', 'a', 'n', 'd', 'b', 'o', 'x', 'e', 'v', 'i', 'l']] =
          [['w'], ['s', 'a', 'n', 'd', 'b', 'o', 'x']] ∨
        isDescendant
          [['w'], ['s', 'a', 'n', 'd', 'b', 'o', 'x', 'e', 'v', 'i', 'l']]
          [['w'], ['s', 'a', 'n', 'd', 'b', 'o', 'x']])
    ∧ WFPath [['w'], ['s', 'a', 'n', 'd', 'b', 'o', 'x', 'e', 'v', 'i', 'l']]
    ∧ WFPath [['w'], ['s', 'a', 'n', 'd', 'b', 'o', 'x']] := by
  decide

/-! ## The per-file iteration loop: `process_file` (main.py:27-361)

The three agents are external capabilities; `process_file` only inspects
the fields modelled below.  Each agent is modelled as an oracle indexed
by the iteration number (the code calls each at most once per
iteration); the judge additionally receives the carried
`previous_score`.  The `while iteration < max_iterations` loop is
embedded as structural recursion on the remaining iteration budget,
with the `iteration` counter threaded through the state exactly as in
the code.  Scores (Python floats compared and subtracted only) are
modelled as rationals. -/

/-- One issue reported by the auditor
(`{file, line, issue_type, description}` per the data model). -/
structure Issue where
  file : String
  line : Nat
  issue_type : String
  description : String
deriving DecidableEq, Repr

/-- The fields of `audit_result` that `process_file` inspects. -/
structure AuditResult where
  error : Option String
  issues : List Issue
deriving DecidableEq, Repr

/-- The fields of `fix_result` that `process_file` inspects. -/
structure FixResult where
  error : Option String
  action : String
deriving DecidableEq, Repr

/-- The fields of `validation_result` that `process_file` inspects
(`verdict` is a loosely-typed string in the code, so it is a `String`
here; unknown values are possible). -/
structure ValidationResult where
  verdict : String
  actual_pylint_score : ℚ
  actual_test_passed : Option Bool
deriving DecidableEq, Repr

/-- The mutable locals of `process_file`'s loop. -/
structure LoopState where
  iteration : Nat
  previous_score : ℚ
  retry_count : Nat
  final_status : String
deriving DecidableEq, Repr

/-- The dictionary `process_file` returns (processing time omitted). -/
structure FileRunResult where
  status : String
  iterations : Nat
  final_score : ℚ
deriving DecidableEq, Repr

/-- The `while iteration < max_iterations` loop of `process_file`.  The
first argument is the remaining budget (`max_iterations - iteration`);
each `break` in the Python code is an early return of the state and
each loop continuation is a recursive call. -/
def processLoop (auditor : Nat → AuditResult) (fixer : Nat → FixResult)
    (judge : Nat → ℚ → ValidationResult) :
    Nat → LoopState → LoopState
  | 0, st => st
  | fuel + 1, st =>
    let i := st.iteration + 1
    let audit_result := auditor i
    if audit_result.error.isSome then
      { st with iteration := i, final_status := "AUDIT_FAILED" }
    else if audit_result.issues.isEmpty then
      { st with iteration := i, final_status := "CLEAN" }
    else
      let fix_result := fixer i
      if fix_result.error.isSome then
        { st with iteration := i, final_status := "FIX_FAILED" }
      else if fix_result.action = "SKIP" then
        { st with iteration := i, final_status := "SKIPPED" }
      else if fix_result.action ≠ "FIX" then
        { st with iteration := i, final_status := "UNEXPECTED_ACTION" }
      else
        let validation_result := judge i st.previous_score
        let current_score := validation_result.actual_pylint_score
        if validation_result.verdict = "PASS" then
          { st with
            iteration := i
            previous_score := current_score
            final_status := "SUCCESS" }
        else if validation_result.verdict = "FAIL" then
          processLoop auditor fixer judge fuel
            { st with iteration := i, previous_score := current_score }
        else if validation_result.verdict = "RETRY" then
          processLoop auditor fixer judge fuel
            { st with
              iteration := i
              previous_score := current_score
              retry_count := st.retry_count + 1 }
        else
          { st with
            iteration := i
            previous_score := current_score
            final_status := "UNKNOWN_VERDICT" }

/-- Embedding of `process_file`: run the loop from the initial locals
(`iteration = 0`, `previous_score = 0.0`, `final_status = "UNKNOWN"`),
then apply the post-loop cap check
`if iteration >= max_iterations and final_status not in
["SUCCESS", "CLEAN", "SKIPPED"]: final_status = "MAX_ITERATIONS"`
and build the returned dictionary. -/
def process_file (auditor : Nat → AuditResult) (fixer : Nat → FixResult)
    (judge : Nat → ℚ → ValidationResult) (max_iterations : Nat) :
    FileRunResult :=
  let st := processLoop auditor fixer judge max_iterations
    ⟨0, 0, 0, "UNKNOWN"⟩
  let final_status :=
    if max_iterations ≤ st.iteration ∧
        st.final_status ∉ ["SUCCESS", "CLEAN", "SKIPPED"] then
      "MAX_ITERATIONS"
    else st.final_status
  ⟨final_status, st.iteration, st.previous_score⟩

theorem processLoop_iteration_le (a : Nat → AuditResult)
    (f : Nat → FixResult) (j : Nat → ℚ → ValidationResult) :
    ∀ (fuel : Nat) (st : LoopState),
      (processLoop a f j fuel st).iteration ≤ st.iteration + fuel := by
  intro fuel
  induction fuel with
  | zero => intro st; simp [processLoop]
  | succ n ih =>
    intro st
    simp only [processLoop]
    split
    · simp
    · split
      · simp
      · split
        · simp
        · split
          · simp
          · split
            · simp
            · split
              · simp
              · split
                · have h := ih { st with
                    iteration := st.iteration + 1
                    previous_score :=
                      (j (st.iteration + 1) st.previous_score).actual_pylint_score }
                  have h2 : ({ st with
                    iteration := st.iteration + 1
                    previous_score :=
                      (j (st.iteration + 1) st.previous_score).actual_pylint_score} :
                        LoopState).iteration = st.iteration + 1 := rfl
                  omega
                · split
                  · have h := ih { st with
                      iteration := st.iteration + 1
                      previous_score :=
                        (j (st.iteration + 1) st.previous_score).actual_pylint_score
                      retry_count := st.retry_count + 1 }
                    have h2 : ({ st with
                      iteration := st.iteration + 1
                      previous_score :=
                        (j (st.iteration + 1) st.previous_score).actual_pylint_score
                      retry_count := st.retry_count + 1 } :
                        LoopState).iteration = st.iteration + 1 := rfl
                    omega
                  · simp

/-- C5.  For every `max_iterations = N ≥ 1` and every behaviour of the
audit, fix and judge capabilities, the iteration count returned by
`process_file` never exceeds `N`. -/
theorem process_file_iterations_le_max (a : Nat → AuditResult)
    (f : Nat → FixResult) (j : Nat → ℚ → ValidationResult)
    (N : Nat) (hN : 1 ≤ N) :
    (process_file a f j N).iterations ≤ N := by
  have h := processLoop_iteration_le a f j N ⟨0, 0, 0, "UNKNOWN"⟩
  have h2 : ((⟨0, 0, 0, "UNKNOWN"⟩ : LoopState)).iteration = 0 := rfl
  unfold process_file
  dsimp only
  omega

/-- Instantiation of `process_file_iterations_le_max` at `N = 3` with a
judge that always answers `RETRY`. -/
theorem process_file_iterations_le_max_witness :
    (process_file (fun _ => ⟨none, [⟨"m.py", 1, "W0001", "bad"⟩]⟩)
      (fun _ => ⟨none, "FIX"⟩) (fun _ _ => ⟨"RETRY", 5, none⟩)
      3).iterations ≤ 3 :=
  process_file_iterations_le_max _ _ _ 3 (by decide)

/-- C6.  For every behaviour of the agents and every
`max_iterations ≥ 1`, if the first audit call succeeds and returns zero
issues then `process_file` returns status `CLEAN` with
`iterations = 1` (and final score `0`), regardless of
`max_iterations`. -/
theorem process_file_clean_first_iteration (a : Nat → AuditResult)
    (f : Nat → FixResult) (j : Nat → ℚ → ValidationResult)
    (N : Nat) (hN : 1 ≤ N)
    (herr : (a 1).error = none) (hiss : (a 1).issues = []) :
    process_file a f j N = ⟨"CLEAN", 1, 0⟩ := by
  obtain ⟨m, rfl⟩ : ∃ m, N = m + 1 := ⟨N - 1, by omega⟩
  unfold process_file
  simp [processLoop, herr, hiss]

/-- Instantiation of `process_file_clean_first_iteration` with a clean
audit and `max_iterations = 10`. -/
theorem process_file_clean_first_iteration_witness :
    process_file (fun _ => ⟨none, []⟩) (fun _ => ⟨none, "FIX"⟩)
      (fun _ _ => ⟨"PASS", 10, some true⟩) 10 = ⟨"CLEAN", 1, 0⟩ :=
  process_file_clean_first_iteration _ _ _ 10 (by decide) rfl rfl

theorem processLoop_status_cases (a : Nat → AuditResult)
    (f : Nat → FixResult) (j : Nat → ℚ → ValidationResult) :
    ∀ (fuel : Nat) (st : LoopState),
      (processLoop a f j fuel st).final_status = st.final_status ∨
      (processLoop a f j fuel st).final_status ∈
        ["AUDIT_FAILED", "CLEAN", "FIX_FAILED", "SKIPPED",
         "UNEXPECTED_ACTION", "SUCCESS", "UNKNOWN_VERDICT"] := by
  intro fuel
  induction fuel with
  | zero => intro st; left; simp [processLoop]
  | succ n ih =>
    intro st
    simp only [processLoop]
    split
    · right; simp
    · split
      · right; simp
      · split
        · right; simp
        · split
          · right; simp
          · split
            · right; simp
            · split
              · right; simp
              · split
                · exact ih _
                · split
                  · exact ih _
                  · right; simp

/-- C4 (counterexample).  With an auditor that always fails and
`max_iterations = 1`, the loop reaches the terminal `AUDIT_FAILED` on
the final iteration, yet `process_file` returns `MAX_ITERATIONS`: the
post-loop check of main.py:317 overwrites a terminal failure status
reached on the final iteration, so the failure terminals are not
preserved as the claim states. -/
theorem process_file_overwrites_final_iteration_terminal :
    process_file (fun _ => ⟨some "audit error", []⟩)
        (fun _ => ⟨none, "FIX"⟩) (fun _ _ => ⟨"FAIL", 0, none⟩) 1 =
      ⟨"MAX_ITERATIONS", 1, 0⟩
    ∧ (processLoop (fun _ => ⟨some "audit error", []⟩)
        (fun _ => ⟨none, "FIX"⟩) (fun _ _ => ⟨"FAIL", 0, none⟩) 1
        ⟨0, 0, 0, "UNKNOWN"⟩).final_status = "AUDIT_FAILED" := by
  constructor
  · rfl
  · rfl

/-- C4 (amended).  `process_file` returns `MAX_ITERATIONS` exactly when
the loop exits with `iteration ≥ max_iterations` and a status outside
`SUCCESS`/`CLEAN`/`SKIPPED`; a status reached strictly before the last
iteration is preserved, and `SUCCESS`, `CLEAN`, `SKIPPED` are always
preserved — but the failure terminals (`AUDIT_FAILED`, `FIX_FAILED`,
`UNEXPECTED_ACTION`, `UNKNOWN_VERDICT`) reached on the final iteration
are overwritten to `MAX_ITERATIONS`. -/
theorem process_file_max_iterations_characterization
    (a : Nat → AuditResult) (f : Nat → FixResult)
    (j : Nat → ℚ → ValidationResult) (N : Nat) (st : LoopState)
    (hst : processLoop a f j N ⟨0, 0, 0, "UNKNOWN"⟩ = st) :
    ((process_file a f j N).status = "MAX_ITERATIONS" ↔
      (N ≤ st.iteration ∧
        st.final_status ∉ ["SUCCESS", "CLEAN", "SKIPPED"]))
    ∧ (st.iteration < N → (process_file a f j N).status = st.final_status)
    ∧ (st.final_status ∈ ["SUCCESS", "CLEAN", "SKIPPED"] →
        (process_file a f j N).status = st.final_status) := by
  have hcases := processLoop_status_cases a f j N ⟨0, 0, 0, "UNKNOWN"⟩
  rw [hst] at hcases
  have hne : st.final_status ≠ "MAX_ITERATIONS" := by
    rcases hcases with h | h
    · rw [h]; decide
    · simp only [List.mem_cons, List.not_mem_nil, or_false] at h
      rcases h with h | h | h | h | h | h | h <;> rw [h] <;> decide
  unfold process_file
  simp only [hst]
  by_cases hc : N ≤ st.iteration ∧
      st.final_status ∉ ["SUCCESS", "CLEAN", "SKIPPED"]
  · rw [if_pos hc]
    refine ⟨by simp [hc], fun hlt => absurd hc.1 (by omega), fun hmem => ?_⟩
    exact absurd hmem hc.2
  · rw [if_neg hc]
    exact ⟨⟨fun hmax => absurd hmax hne, fun hcond => absurd hcond hc⟩,
      fun _ => rfl, fun _ => rfl⟩

/-- Instantiation of `process_file_max_iterations_characterization`: the
auditor fails on iteration 1 of a 2-iteration budget, so the loop exits
at iteration `1 < 2` and `AUDIT_FAILED` is preserved. -/
theorem process_file_max_iterations_characterization_witness :
    ((process_file (fun _ => ⟨some "boom", []⟩) (fun _ => ⟨none, "FIX"⟩)
        (fun _ _ => ⟨"FAIL", 0, none⟩) 2).status = "MAX_ITERATIONS" ↔
      (2 ≤ 1 ∧ "AUDIT_FAILED" ∉ ["SUCCESS", "CLEAN", "SKIPPED"]))
    ∧ (1 < 2 → (process_file (fun _ => ⟨some "boom", []⟩)
        (fun _ => ⟨none, "FIX"⟩) (fun _ _ => ⟨"FAIL", 0, none⟩) 2).status =
        "AUDIT_FAILED")
    ∧ ("AUDIT_FAILED" ∈ ["SUCCESS", "CLEAN", "SKIPPED"] →
        (process_file (fun _ => ⟨some "boom", []⟩) (fun _ => ⟨none, "FIX"⟩)
          (fun _ _ => ⟨"FAIL", 0, none⟩) 2).status = "AUDIT_FAILED") :=
  process_file_max_iterations_characterization
    (fun _ => ⟨some "boom", []⟩) (fun _ => ⟨none, "FIX"⟩)
    (fun _ _ => ⟨"FAIL", 0, none⟩) 2 ⟨1, 0, 0, "AUDIT_FAILED"⟩ rfl


/-- Two judge behaviours that are identical (same score, same test
signal) except that, at some iterations, one may answer `FAIL` where the
other answers `RETRY`. -/
def FailRetryAgree (j₁ j₂ : Nat → ℚ → ValidationResult) : Prop :=
  ∀ i s,
    (j₁ i s).actual_pylint_score = (j₂ i s).actual_pylint_score ∧
    (j₁ i s).actual_test_passed = (j₂ i s).actual_test_passed ∧
    ((j₁ i s).verdict = (j₂ i s).verdict ∨
      (((j₁ i s).verdict = "FAIL" ∨ (j₁ i s).verdict = "RETRY") ∧
       ((j₂ i s).verdict = "FAIL" ∨ (j₂ i s).verdict = "RETRY")))

theorem processLoop_fail_retry_agree (a : Nat → AuditResult)
    (f : Nat → FixResult) {j₁ j₂ : Nat → ℚ → ValidationResult}
    (hj : FailRetryAgree j₁ j₂) :
    ∀ (fuel it rc₁ rc₂ : Nat) (ps : ℚ) (fs : String),
      ((processLoop a f j₁ fuel ⟨it, ps, rc₁, fs⟩).iteration,
       (processLoop a f j₁ fuel ⟨it, ps, rc₁, fs⟩).previous_score,
       (processLoop a f j₁ fuel ⟨it, ps, rc₁, fs⟩).final_status) =
      ((processLoop a f j₂ fuel ⟨it, ps, rc₂, fs⟩).iteration,
       (processLoop a f j₂ fuel ⟨it, ps, rc₂, fs⟩).previous_score,
       (processLoop a f j₂ fuel ⟨it, ps, rc₂, fs⟩).final_status) := by
  intro fuel
  induction fuel with
  | zero => intro it rc₁ rc₂ ps fs; rfl
  | succ n ih =>
    intro it rc₁ rc₂ ps fs
    obtain ⟨hsc, _, hv⟩ := hj (it + 1) ps
    simp only [processLoop]
    split
    · rfl
    · split
      · rfl
      · split
        · rfl
        · split
          · rfl
          · split
            · rfl
            · rcases hv with hv | ⟨hv₁, hv₂⟩
              · rw [hv, hsc]
                split
                · rfl
                · split
                  · exact ih (it + 1) rc₁ rc₂
                      ((j₂ (it + 1) ps).actual_pylint_score) fs
                  · split
                    · exact ih (it + 1) (rc₁ + 1) (rc₂ + 1)
                        ((j₂ (it + 1) ps).actual_pylint_score) fs
                    · rfl
              · rw [hsc]
                rcases hv₁ with hv₁ | hv₁ <;> rcases hv₂ with hv₂ | hv₂ <;>
                  rw [hv₁, hv₂]
                · exact ih (it + 1) rc₁ rc₂
                    ((j₂ (it + 1) ps).actual_pylint_score) fs
                · exact ih (it + 1) rc₁ (rc₂ + 1)
                    ((j₂ (it + 1) ps).actual_pylint_score) fs
                · exact ih (it + 1) (rc₁ + 1) rc₂
                    ((j₂ (it + 1) ps).actual_pylint_score) fs
                · exact ih (it + 1) (rc₁ + 1) (rc₂ + 1)
                    ((j₂ (it + 1) ps).actual_pylint_score) fs

/-- C7.  For any two judge behaviours that are identical except for
swapping `FAIL` and `RETRY` verdicts at some iterations, `process_file`
produces the same final status, iteration count and final score:
`FAIL` and `RETRY` drive identical control flow. -/
theorem process_file_fail_retry_equivalent (a : Nat → AuditResult)
    (f : Nat → FixResult) {j₁ j₂ : Nat → ℚ → ValidationResult}
    (hj : FailRetryAgree j₁ j₂) (N : Nat) :
    process_file a f j₁ N = process_file a f j₂ N := by
  have h := processLoop_fail_retry_agree a f hj N 0 0 0 0 "UNKNOWN"
  injection h with h1 h
  injection h with h2 h3
  unfold process_file
  dsimp only
  rw [h1, h2, h3]

/-- Instantiation of `process_file_fail_retry_equivalent`: an
always-`FAIL` judge and an always-`RETRY` judge with the same scores
yield identical results for a 3-iteration run. -/
theorem process_file_fail_retry_equivalent_witness :
    process_file (fun _ => ⟨none, [⟨"m.py", 1, "W0001", "bad"⟩]⟩)
        (fun _ => ⟨none, "FIX"⟩) (fun _ _ => ⟨"FAIL", 4, some true⟩) 3 =
      process_file (fun _ => ⟨none, [⟨"m.py", 1, "W0001", "bad"⟩]⟩)
        (fun _ => ⟨none, "FIX"⟩) (fun _ _ => ⟨"RETRY", 4, some true⟩) 3 :=
  @process_file_fail_retry_equivalent
    (fun _ => ⟨none, [⟨"m.py", 1, "W0001", "bad"⟩]⟩)
    (fun _ => ⟨none, "FIX"⟩)
    (fun _ _ => ⟨"FAIL", 4, some true⟩)
    (fun _ _ => ⟨"RETRY", 4, some true⟩)
    (fun _ _ => ⟨rfl, rfl, Or.inr ⟨Or.inl rfl, Or.inr rfl⟩⟩) 3

/-! ## JudgeStage verdict derivation (spec §4.4)

`main.py` calls `judge.validate_file(file_path, test_file_path,
previous_score)` and reads `verdict`, `actual_pylint_score` and
`actual_test_passed` from its result, but no `validate_file` method is
defined anywhere in the repository sources (the two `JudgeAgent`
classes present only expose `validate`/`validate_with_error`, which
return a bare pass/fail boolean).  The verdict derivation is therefore
modelled from the spec. -/

/-- The Judge's categorical outcome, a closed variant per spec §9. -/
inductive Verdict where
  | PASS
  | FAIL
  | RETRY
deriving DecidableEq, Repr

/-- Modelled from the spec: the verdict derivation of
`JudgeAgent.validate_file` is missing from the repository sources (only
its caller in `main.py` exists); spec §4.4 defines it by:
`test_passed = false ⇒ FAIL`; otherwise score at/above the pass
threshold ⇒ `PASS`; otherwise non-negative improvement over
`previous_score` ⇒ `RETRY`; otherwise ⇒ `FAIL`. -/
def deriveVerdict (quality_score : ℚ) (test_passed : Option Bool)
    (previous_score pass_threshold : ℚ) : Verdict :=
  if test_passed = some false then .FAIL
  else if pass_threshold ≤ quality_score then .PASS
  else if 0 ≤ quality_score - previous_score then .RETRY
  else .FAIL

/-- C3.  For every validation with `quality_score ∈ [0, 10]` and
`test_passed ∈ {true, false, null}`: the verdict is `FAIL` whenever
`test_passed = false` (never `PASS`, for any score); `PASS` whenever
`test_passed` is `true` or `null` and the score is at or above the pass
threshold; `RETRY` whenever `test_passed` is `true` or `null`, the
score is below the threshold, and the score shows non-negative
improvement over `previous_score`; and `FAIL` whenever `test_passed` is
`true` or `null`, the score is below the threshold, and the improvement
is negative (a regression). -/
theorem judge_verdict_policy
    (quality_score previous_score pass_threshold : ℚ)
    (test_passed : Option Bool)
    (h0 : 0 ≤ quality_score) (h10 : quality_score ≤ 10) :
    (test_passed = some false →
      deriveVerdict quality_score test_passed previous_score
        pass_threshold = .FAIL)
    ∧ (test_passed ≠ some false → pass_threshold ≤ quality_score →
      deriveVerdict quality_score test_passed previous_score
        pass_threshold = .PASS)
    ∧ (test_passed ≠ some false → quality_score < pass_threshold →
      0 ≤ quality_score - previous_score →
      deriveVerdict quality_score test_passed previous_score
        pass_threshold = .RETRY)
    ∧ (test_passed ≠ some false → quality_score < pass_threshold →
      quality_score - previous_score < 0 →
      deriveVerdict quality_score test_passed previous_score
        pass_threshold = .FAIL) := by
  refine ⟨fun hf => ?_, fun hne hth => ?_, fun hne hth himp => ?_,
    fun hne hth himp => ?_⟩
  · unfold deriveVerdict
    rw [if_pos hf]
  · unfold deriveVerdict
    rw [if_neg hne, if_pos hth]
  · unfold deriveVerdict
    rw [if_neg hne, if_neg (not_le.mpr hth), if_pos himp]
  · unfold deriveVerdict
    rw [if_neg hne, if_neg (not_le.mpr hth), if_neg (not_le.mpr himp)]

/-- Instantiation of `judge_verdict_policy` at score `5`, previous
score `3`, threshold `7`, no test available: the verdict is `RETRY`. -/
theorem judge_verdict_policy_witness :
    deriveVerdict 5 none 3 7 = .RETRY :=
  (judge_verdict_policy 5 3 7 none (by norm_num) (by norm_num)).2.2.1
    (by decide) (by norm_num) (by norm_num)

/-! ## FileScanner: `list_python_files` (src/tools/file_tools.py:51-72)

```python
for root, dirs, files in os.walk(directory):
    for file in files:
        if file.endswith('.py'):
            full_path = os.path.join(root, file)
            python_files.append(full_path)
```

`os.walk` is an operating-system capability: it is modelled as the
sequence of `(dirpath, filenames)` pairs it yields, in traversal order
(Python's `os.walk` yields directory entries in the order the OS
returns them; it does not sort).  Strings that undergo suffix tests are
modelled as character lists. -/

/-- A Python string, as its characters. -/
abbrev PyStr := List Char

/-- The source-file extension `.py`. -/
def pyExt : PyStr := ['.', 'p', 'y']

/-- One `(dirpath, filenames)` pair yielded by `os.walk`. -/
structure WalkEntry where
  root : PyStr
  files : List PyStr
deriving DecidableEq, Repr

/-- Embedding of `list_python_files`: keep, in walk order, every file
name ending in `.py`, joined to its directory path. -/
def list_python_files (walk : List WalkEntry) : List PyStr :=
  walk.flatMap fun e =>
    (e.files.filter fun file => pyExt.isSuffixOf file).map
      fun file => e.root ++ '/' :: file

/-- C8 (counterexample).  On a directory whose walk yields
`test_a.py` then `b.py`, `list_python_files` returns **both** files,
`test_a.py` first: test files are not excluded from the
mutation-candidate set (and the order is the walk order, not lexical
order by path, which would put `b.py` first). -/
theorem list_python_files_includes_test_files :
    list_python_files
        [⟨['d'], [['t', 'e', 's', 't', '_', 'a', '.', 'p', 'y'],
                  ['b', '.', 'p', 'y']]⟩] =
      [['d', '/', 't', 'e', 's', 't', '_', 'a', '.', 'p', 'y'],
       ['d', '/', 'b', '.', 'p', 'y']] := by decide

/-- C8 (amended).  `list_python_files` returns exactly the files of the
walked subtree whose names end in `.py` — including test files, which
are **not** excluded — each joined to its directory path, concatenated
in `os.walk` traversal order; and it returns `[]` (not an error)
exactly when no file of the subtree ends in `.py`. -/
theorem list_python_files_membership (walk : List WalkEntry) :
    (∀ x, x ∈ list_python_files walk ↔
      ∃ e ∈ walk, ∃ file ∈ e.files,
        pyExt.isSuffixOf file = true ∧ x = e.root ++ '/' :: file)
    ∧ (list_python_files walk = [] ↔
      ∀ e ∈ walk, ∀ file ∈ e.files, pyExt.isSuffixOf file = false) := by
  constructor
  · intro x
    constructor
    · intro hx
      simp only [list_python_files, List.mem_flatMap, List.mem_map,
        List.mem_filter] at hx
      obtain ⟨e, he, file, ⟨hf, hpy⟩, hx⟩ := hx
      exact ⟨e, he, file, hf, hpy, hx.symm⟩
    · rintro ⟨e, he, file, hf, hpy, rfl⟩
      simp only [list_python_files, List.mem_flatMap, List.mem_map,
        List.mem_filter]
      exact ⟨e, he, file, ⟨hf, hpy⟩, rfl⟩
  · rw [list_python_files, List.flatMap_eq_nil_iff]
    constructor
    · intro h e he file hf
      have := h e he
      rw [List.map_eq_nil_iff, List.filter_eq_nil_iff] at this
      exact Bool.not_eq_true _ ▸ this file hf
    · intro h e he
      rw [List.map_eq_nil_iff, List.filter_eq_nil_iff]
      intro file hf
      rw [h e he file hf]
      exact Bool.false_ne_true

/-- Instantiation of `list_python_files_membership`: `a.py` under
directory `d` is a member of the scan result. -/
theorem list_python_files_membership_witness :
    ['d', '/', 'a', '.', 'p', 'y'] ∈
      list_python_files [⟨['d'], [['a', '.', 'p', 'y'], ['b']]⟩] :=
  ((list_python_files_membership
      [⟨['d'], [['a', '.', 'p', 'y'], ['b']]⟩]).1
    ['d', '/', 'a', '.', 'p', 'y']).mpr
    ⟨⟨['d'], [['a', '.', 'p', 'y'], ['b']]⟩, by decide,
      ['a', '.', 'p', 'y'], by decide, by decide, by decide⟩

/-! ## FixerAgent.fix (src/agents/fixer.py:77-196)

The audit response is grouped by file (`issues_by_file`, a Python dict
with insertion order), each group is capped at 5 issues
(`file_issues[:5]`), a fixed version of the file is obtained from the
LLM (`proposal`, covering the chat call and `_clean_code_response`),
validated with `ast.parse` (`syntaxOk`, covering
`_validate_python_syntax`) and written through `safe_write_file` only
when the syntax is valid (`sandboxOk` abstracts the sandbox
authorization of `safe_write_file` on the joined path; when it fails
the raised `PermissionError` is caught by the surrounding `except`, so
no write happens).  A `FixAttempt` records one processed group: the
file name, the issues actually included in the fix request, and the
outcome of the syntax gate. -/

/-- One fix attempt on one file: the issues included in the prompt and
whether the proposed code passed the syntax gate. -/
structure FixAttempt where
  filename : String
  issues_to_fix : List Issue
  syntax_valid : Bool
deriving DecidableEq, Repr

/-- One step of the grouping loop
(`issues_by_file[filename].append(issue)`, with new files appended in
first-occurrence order, as for a Python dict). -/
def addIssueToGroups (groups : List (String × List Issue))
    (issue : Issue) : List (String × List Issue) :=
  if groups.any fun g => g.1 = issue.file then
    groups.map fun g =>
      if g.1 = issue.file then (g.1, g.2 ++ [issue]) else g
  else groups ++ [(issue.file, [issue])]

/-- Embedding of the grouping pass of `FixerAgent.fix`
(fixer.py:97-102). -/
def issues_by_file (issues : List Issue) : List (String × List Issue) :=
  issues.foldl addIssueToGroups []

/-- The per-file loop of `FixerAgent.fix` (fixer.py:105-196): skip
non-`.py` names and missing files; otherwise cap the group at 5
issues, obtain a proposed fix, and write it only if the syntax gate
(and the sandbox authorization) passes. -/
def FixerAgent.fixLoop (proposal : String → PyStr → PyStr)
    (syntaxOk : PyStr → Bool) (sandboxOk : String → Bool)
    (target_dir : String) :
    (String → Option PyStr) → List (String × List Issue) →
      (String → Option PyStr) × List FixAttempt
  | fs, [] => (fs, [])
  | fs, (filename, file_issues) :: rest =>
    if pyExt.isSuffixOf filename.toList then
      match fs (target_dir ++ "/" ++ filename) with
      | none =>
        FixerAgent.fixLoop proposal syntaxOk sandboxOk target_dir fs rest
      | some original_code =>
        let issues_to_fix := file_issues.take 5
        let fixed_code := proposal filename original_code
        let syntax_valid := syntaxOk fixed_code
        let fs' : String → Option PyStr :=
          if syntax_valid then
            if sandboxOk (target_dir ++ "/" ++ filename) then
              fun q =>
                if q = target_dir ++ "/" ++ filename then some fixed_code
                else fs q
            else fs
          else fs
        let res :=
          FixerAgent.fixLoop proposal syntaxOk sandboxOk target_dir fs' rest
        (res.1, ⟨filename, issues_to_fix, syntax_valid⟩ :: res.2)
    else
      FixerAgent.fixLoop proposal syntaxOk sandboxOk target_dir fs rest

/-- Embedding of `FixerAgent.fix`: `audit_response` is the parsed JSON
issue list (`none` models a `json.JSONDecodeError`); an unparsable or
empty response returns with no changes (fixer.py:85-92). -/
def FixerAgent.fix (proposal : String → PyStr → PyStr)
    (syntaxOk : PyStr → Bool) (sandboxOk : String → Bool)
    (target_dir : String) (fs : String → Option PyStr)
    (audit_response : Option (List Issue)) :
    (String → Option PyStr) × List FixAttempt :=
  match audit_response with
  | none => (fs, [])
  | some [] => (fs, [])
  | some issues =>
    FixerAgent.fixLoop proposal syntaxOk sandboxOk target_dir fs
      (issues_by_file issues)

theorem string_append_left_cancel {a b c : String}
    (h : a ++ b = a ++ c) : b = c := by
  have hd := congrArg String.data h
  simp only [String.data_append] at hd
  exact String.ext (List.append_cancel_left hd)

theorem fixLoop_writes_syntax_valid (proposal : String → PyStr → PyStr)
    (syntaxOk : PyStr → Bool) (sandboxOk : String → Bool)
    (target_dir : String) :
    ∀ (groups : List (String × List Issue)) (fs : String → Option PyStr)
      (p : String),
      (FixerAgent.fixLoop proposal syntaxOk sandboxOk target_dir fs
        groups).1 p = fs p ∨
      ∃ c, (FixerAgent.fixLoop proposal syntaxOk sandboxOk target_dir fs
        groups).1 p = some c ∧ syntaxOk c = true := by
  intro groups
  induction groups with
  | nil => intro fs p; left; rfl
  | cons g rest ih =>
    intro fs p
    obtain ⟨filename, file_issues⟩ := g
    simp only [FixerAgent.fixLoop]
    split
    · split
      · exact ih fs p
      · rename_i oc heq
        dsimp only
        by_cases hv : syntaxOk (proposal filename oc) = true
        · by_cases hs : sandboxOk (target_dir ++ "/" ++ filename) = true
          · rw [if_pos hv, if_pos hs]
            rcases ih (fun q =>
                if q = target_dir ++ "/" ++ filename
                then some (proposal filename oc) else fs q) p with h | h
            · rw [h]
              by_cases hq : p = target_dir ++ "/" ++ filename
              · right
                exact ⟨proposal filename oc, by rw [if_pos hq], hv⟩
              · left
                rw [if_neg hq]
            · right; exact h
          · rw [if_pos hv, if_neg hs]
            exact ih fs p
        · rw [if_neg hv]
          exact ih fs p
    · exact ih fs p

theorem fixLoop_preserves_invalid (proposal : String → PyStr → PyStr)
    (syntaxOk : PyStr → Bool) (sandboxOk : String → Bool)
    (target_dir filename : String) (original : PyStr)
    (hinv : syntaxOk (proposal filename original) = false) :
    ∀ (groups : List (String × List Issue)) (fs : String → Option PyStr),
      fs (target_dir ++ "/" ++ filename) = some original →
      (FixerAgent.fixLoop proposal syntaxOk sandboxOk target_dir fs
        groups).1 (target_dir ++ "/" ++ filename) = some original := by
  intro groups
  induction groups with
  | nil => intro fs hfs; exact hfs
  | cons g rest ih =>
    intro fs hfs
    obtain ⟨g1, g2⟩ := g
    simp only [FixerAgent.fixLoop]
    split
    · split
      · exact ih fs hfs
      · rename_i oc heq
        dsimp only
        apply ih
        by_cases hg : g1 = filename
        · subst hg
          rw [hfs] at heq
          injection heq with heq
          rw [heq] at hinv
          rw [if_neg (by rw [hinv]; exact Bool.false_ne_true)]
          exact hfs
        · have hne : ¬ (target_dir ++ "/" ++ filename =
              target_dir ++ "/" ++ g1) := by
            intro hcon
            exact hg (string_append_left_cancel hcon).symm
          by_cases hv : syntaxOk (proposal g1 oc) = true
          · by_cases hs : sandboxOk (target_dir ++ "/" ++ g1) = true
            · rw [if_pos hv, if_pos hs, if_neg hne]
              exact hfs
            · rw [if_pos hv, if_neg hs]
              exact hfs
          · rw [if_neg hv]
            exact hfs
    · exact ih fs hfs

theorem fixLoop_attempts_take_five (proposal : String → PyStr → PyStr)
    (syntaxOk : PyStr → Bool) (sandboxOk : String → Bool)
    (target_dir : String) :
    ∀ (groups : List (String × List Issue)) (fs : String → Option PyStr)
      (a : FixAttempt),
      a ∈ (FixerAgent.fixLoop proposal syntaxOk sandboxOk target_dir fs
        groups).2 →
      ∃ bucket, (a.filename, bucket) ∈ groups ∧
        a.issues_to_fix = bucket.take 5 ∧ a.issues_to_fix.length ≤ 5 := by
  intro groups
  induction groups with
  | nil => intro fs a ha; exact absurd ha (List.not_mem_nil a)
  | cons g rest ih =>
    intro fs a ha
    obtain ⟨g1, g2⟩ := g
    simp only [FixerAgent.fixLoop] at ha
    split at ha
    · split at ha
      · obtain ⟨b, hb, h5⟩ := ih _ a ha
        exact ⟨b, List.mem_cons_of_mem _ hb, h5⟩
      · dsimp only at ha
        rcases List.mem_cons.mp ha with rfl | ha
        · refine ⟨g2, List.mem_cons_self _ _, rfl, ?_⟩
          simp [List.length_take]
        · obtain ⟨b, hb, h5⟩ := ih _ a ha
          exact ⟨b, List.mem_cons_of_mem _ hb, h5⟩
    · obtain ⟨b, hb, h5⟩ := ih _ a ha
      exact ⟨b, List.mem_cons_of_mem _ hb, h5⟩

/-- C9.  For every call to `FixerAgent.fix`: any path whose content the
call changes now holds code that passed the syntax-validity gate (only
gate-passing code is ever written); and for every file whose proposed
replacement fails the gate, the file's content after the call is
exactly its content before (the proposed change is discarded and the
original preserved). -/
theorem fixer_fix_syntax_gate (proposal : String → PyStr → PyStr)
    (syntaxOk : PyStr → Bool) (sandboxOk : String → Bool)
    (target_dir : String) (fs : String → Option PyStr)
    (audit_response : Option (List Issue)) :
    (∀ p, (FixerAgent.fix proposal syntaxOk sandboxOk target_dir fs
        audit_response).1 p ≠ fs p →
      ∃ c, (FixerAgent.fix proposal syntaxOk sandboxOk target_dir fs
        audit_response).1 p = some c ∧ syntaxOk c = true)
    ∧ (∀ filename original,
        fs (target_dir ++ "/" ++ filename) = some original →
        syntaxOk (proposal filename original) = false →
        (FixerAgent.fix proposal syntaxOk sandboxOk target_dir fs
          audit_response).1 (target_dir ++ "/" ++ filename) =
          some original) := by
  constructor
  · intro p hp
    match audit_response with
    | none => exact absurd rfl hp
    | some [] => exact absurd rfl hp
    | some (i :: is) =>
      rcases fixLoop_writes_syntax_valid proposal syntaxOk sandboxOk
        target_dir (issues_by_file (i :: is)) fs p with h | h
      · exact absurd h hp
      · exact h
  · intro filename original hfs hinv
    match audit_response with
    | none => exact hfs
    | some [] => exact hfs
    | some (i :: is) =>
      exact fixLoop_preserves_invalid proposal syntaxOk sandboxOk
        target_dir filename original hinv (issues_by_file (i :: is)) fs hfs

/-- Instantiation of `fixer_fix_syntax_gate`: a proposal that always
fails the syntax gate leaves `d/m.py` with its original content. -/
theorem fixer_fix_syntax_gate_witness :
    (FixerAgent.fix (fun _ _ => ['y']) (fun _ => false) (fun _ => true)
      "d" (fun p => if p = "d/m.py" then some ['x'] else none)
      (some [⟨"m.py", 1, "E0001", "bad"⟩])).1 ("d" ++ "/" ++ "m.py") =
      some ['x'] :=
  (fixer_fix_syntax_gate (fun _ _ => ['y']) (fun _ => false)
    (fun _ => true) "d" (fun p => if p = "d/m.py" then some ['x'] else none)
    (some [⟨"m.py", 1, "E0001", "bad"⟩])).2 "m.py" ['x'] (by decide) rfl

/-- C10.  For every call to `FixerAgent.fix` and every fix attempt it
makes, the issues included in the fix request for a file are exactly
the first 5 issues grouped under that file — never more — so issues
beyond the fifth of a file are silently ignored in that call. -/
theorem fixer_fix_issue_cap (proposal : String → PyStr → PyStr)
    (syntaxOk : PyStr → Bool) (sandboxOk : String → Bool)
    (target_dir : String) (fs : String → Option PyStr)
    (issues : List Issue) :
    ∀ a ∈ (FixerAgent.fix proposal syntaxOk sandboxOk target_dir fs
      (some issues)).2,
      ∃ bucket, (a.filename, bucket) ∈ issues_by_file issues ∧
        a.issues_to_fix = bucket.take 5 ∧ a.issues_to_fix.length ≤ 5 := by
  intro a ha
  match issues with
  | [] => exact absurd ha (List.not_mem_nil a)
  | i :: is =>
    exact fixLoop_attempts_take_five proposal syntaxOk sandboxOk
      target_dir (issues_by_file (i :: is)) fs a ha

/-- Instantiation of `fixer_fix_issue_cap`: six issues on `m.py` yield
one fix attempt holding exactly the first five. -/
theorem fixer_fix_issue_cap_witness :
    ∃ bucket,
      (("m.py", bucket) ∈ issues_by_file
        [⟨"m.py", 1, "E", "a"⟩, ⟨"m.py", 2, "E", "b"⟩,
         ⟨"m.py", 3, "E", "c"⟩, ⟨"m.py", 4, "E", "d"⟩,
         ⟨"m.py", 5, "E", "e"⟩, ⟨"m.py", 6, "E", "f"⟩])
      ∧ ([⟨"m.py", 1, "E", "a"⟩, ⟨"m.py", 2, "E", "b"⟩,
          ⟨"m.py", 3, "E", "c"⟩, ⟨"m.py", 4, "E", "d"⟩,
          ⟨"m.py", 5, "E", "e"⟩] : List Issue) = bucket.take 5
      ∧ ([⟨"m.py", 1, "E", "a"⟩, ⟨"m.py", 2, "E", "b"⟩,
          ⟨"m.py", 3, "E", "c"⟩, ⟨"m.py", 4, "E", "d"⟩,
          ⟨"m.py", 5, "E", "e"⟩] : List Issue).length ≤ 5 :=
  fixer_fix_issue_cap (fun _ _ => ['y']) (fun _ => true) (fun _ => true)
    "d" (fun p => if p = "d/m.py" then some ['x'] else none)
    [⟨"m.py", 1, "E", "a"⟩, ⟨"m.py", 2, "E", "b"⟩,
     ⟨"m.py", 3, "E", "c"⟩, ⟨"m.py", 4, "E", "d"⟩,
     ⟨"m.py", 5, "E", "e"⟩, ⟨"m.py", 6, "E", "f"⟩]
    ⟨"m.py", [⟨"m.py", 1, "E", "a"⟩, ⟨"m.py", 2, "E", "b"⟩,
      ⟨"m.py", 3, "E", "c"⟩, ⟨"m.py", 4, "E", "d"⟩,
      ⟨"m.py", 5, "E", "e"⟩], true⟩ (by decide)
